import Mathlib

set_option maxHeartbeats 1000000

/-!
Shallow embedding of the game server in src/src/index.ts (repository
point-back): a dice-augmented dots-and-boxes game.  JavaScript arrays are
embedded as lists whose reads use a default value (mirroring the falsiness
of an out-of-range read), object records become structures, and the socket
handlers become pure functions from a room registry to a room registry plus
the payload they emit.
-/

/-- The two player identifiers, the values of the TS union type of A and B. -/
inductive Player where
  | A : Player
  | B : Player
deriving DecidableEq

/-- The line-kind enum Linha from index.ts. -/
inductive Linha where
  | VERTICAL : Linha
  | HORIZONTAL : Linha
deriving DecidableEq

/-- The scores record of GameState, one counter per player. -/
structure Scores where
  A : Nat
  B : Nat
deriving DecidableEq

/-- The GameState interface from index.ts.  movesLeft is a Nat: every value
the code stores in it is non-negative, and the guard movesLeft less-or-equal
zero coincides with equality to zero on Nat. -/
structure GameState where
  horizontalLines : List (List Bool)
  verticalLines : List (List Bool)
  squares : List (List (Option Player))
  currentPlayer : Player
  scores : Scores
  movesLeft : Nat
  diceValue : Option Nat
  waitingForRoll : Bool
  winner : Option String
deriving DecidableEq

/-- Read a cell of a nested array, with a default for out-of-range reads. -/
def get2 {α : Type} (d : α) (g : List (List α)) (r c : Nat) : α :=
  (g.getD r []).getD c d

/-- Write a cell of a nested array (no effect out of range). -/
def set2 {α : Type} (g : List (List α)) (r c : Nat) (v : α) : List (List α) :=
  g.set r ((g.getD r []).set c v)

/-- Read a line boolean; an out-of-range read is falsy, as in JS. -/
def getLine (g : List (List Bool)) (r c : Nat) : Bool := get2 false g r c

/-- Read a square owner; an out-of-range read is null-like. -/
def getSquare (g : List (List (Option Player))) (r c : Nat) : Option Player :=
  get2 none g r c

/-- Embeds initializeGame (index.ts lines 52-62). -/
def initGame (size : Nat) : GameState where
  horizontalLines := List.replicate (size + 1) (List.replicate size false)
  verticalLines := List.replicate size (List.replicate (size + 1) false)
  squares := List.replicate size (List.replicate size none)
  currentPlayer := Player.A
  scores := { A := 0, B := 0 }
  movesLeft := 0
  diceValue := none
  waitingForRoll := true
  winner := none

/-- The dice outcome of roll_dice (index.ts line 128).  The code computes
Math.floor(Math.random() * boardSize) + 1; for a positive boardSize the
possible floors are exactly the residues modulo boardSize, so the random
source is embedded as an arbitrary natural u reduced modulo the size. -/
def rolledNumber (size u : Nat) : Nat := u % size + 1

/-- The state update of the roll_dice handler (index.ts lines 130-132). -/
def rollDice (g : GameState) (n : Nat) : GameState :=
  { g with diceValue := some n, movesLeft := n, waitingForRoll := false }

/-- The four-edge test of checkSquare (index.ts lines 165-170). -/
def closedSquare (g : GameState) (r c : Nat) : Bool :=
  getLine g.horizontalLines r c && getLine g.horizontalLines (r + 1) c &&
  getLine g.verticalLines r c && getLine g.verticalLines r (c + 1)

/-- Embeds checkSquare (index.ts lines 164-176): when all four edges of
square (r, c) are drawn and it is unowned, assign it to the current player
and add one to that player's score. -/
def addScore (s : Scores) (p : Player) : Scores :=
  match p with
  | Player.A => { s with A := s.A + 1 }
  | Player.B => { s with B := s.B + 1 }

def scoreOf (s : Scores) (p : Player) : Nat :=
  match p with
  | Player.A => s.A
  | Player.B => s.B

def checkSquare (g : GameState) (r c : Nat) : GameState :=
  if closedSquare g r c then
    if getSquare g.squares r c = none then
      { g with squares := set2 g.squares r c (some g.currentPlayer),
               scores := addScore g.scores g.currentPlayer }
    else g
  else g

/-- The other player, as computed by the turn switch (index.ts line 188). -/
def otherPlayer (p : Player) : Player :=
  if p = Player.A then Player.B else Player.A

/-- Marking the chosen line and decrementing movesLeft
(index.ts lines 155-161). -/
def drawPhase (g : GameState) (t : Linha) (row col : Nat) : GameState :=
  match t with
  | Linha.HORIZONTAL =>
      { g with horizontalLines := set2 g.horizontalLines row col true,
               movesLeft := g.movesLeft - 1 }
  | Linha.VERTICAL =>
      { g with verticalLines := set2 g.verticalLines row col true,
               movesLeft := g.movesLeft - 1 }

/-- The candidate-square checks after a line draw (index.ts lines 178-184). -/
def scorePhase (size : Nat) (g : GameState) (t : Linha) (row col : Nat) : GameState :=
  match t with
  | Linha.HORIZONTAL =>
      let a := if row < size then checkSquare g row col else g
      if 0 < row then checkSquare a (row - 1) col else a
  | Linha.VERTICAL =>
      let a := if col < size then checkSquare g row col else g
      if 0 < col then checkSquare a row (col - 1) else a

/-- The turn switch (index.ts lines 187-191). -/
def turnPhase (g : GameState) : GameState :=
  if g.movesLeft = 0 then
    { g with currentPlayer := otherPlayer g.currentPlayer,
             waitingForRoll := true, diceValue := none }
  else g

/-- The game-end check (index.ts lines 193-199). -/
def endPhase (size : Nat) (g : GameState) : GameState :=
  if g.scores.A + g.scores.B = size * size then
    { g with movesLeft := 0, waitingForRoll := false,
             winner := some (if g.scores.A > g.scores.B then "A"
                             else if g.scores.B > g.scores.A then "B" else "Draw") }
  else g

/-- Embeds the make_move handler body acting on one game state
(index.ts lines 148-199).  Returns none exactly when one of the three
validations rejects the move (the handler's early returns). -/
def makeMove (size : Nat) (g : GameState) (t : Linha) (row col : Nat) :
    Option GameState :=
  if g.waitingForRoll = true then none
  else if g.movesLeft ≤ 0 then none
  else if t = Linha.HORIZONTAL ∧ getLine g.horizontalLines row col = true then none
  else if t = Linha.VERTICAL ∧ getLine g.verticalLines row col = true then none
  else some (endPhase size (turnPhase (scorePhase size (drawPhase g t row col) t row col)))

/-- The state after a make_move request: the updated state when accepted,
the unchanged state when rejected. -/
def moveResult (size : Nat) (g : GameState) (t : Linha) (row col : Nat) : GameState :=
  (makeMove size g t row col).getD g

/-- The at-most-two squares adjacent to a drawn line that the handler
re-checks (index.ts lines 178-184). -/
def candidateSquares (t : Linha) (row col size : Nat) : List (Nat × Nat) :=
  match t with
  | Linha.HORIZONTAL =>
      (if row < size then [(row, col)] else []) ++
      (if 0 < row then [(row - 1, col)] else [])
  | Linha.VERTICAL =>
      (if col < size then [(row, col)] else []) ++
      (if 0 < col then [(row, col - 1)] else [])

/-- Run checkSquare on each cell of a list in order, as the handler does on
the candidate squares. -/
def checkAll (g : GameState) (l : List (Nat × Nat)) : GameState :=
  l.foldl (fun a rc => checkSquare a rc.1 rc.2) g

/-- The claiming condition of checkSquare at one cell: the square is closed
and still unowned. -/
def newlyClosed (g : GameState) (rc : Nat × Nat) : Bool :=
  closedSquare g rc.1 rc.2 && (getSquare g.squares rc.1 rc.2).isNone

/-- In-bounds coordinates for a line of either orientation on an N board. -/
def inBoundsMove (size : Nat) (t : Linha) (row col : Nat) : Prop :=
  match t with
  | Linha.HORIZONTAL => row ≤ size ∧ col < size
  | Linha.VERTICAL => row < size ∧ col ≤ size

/-- One player record of a room (index.ts lines 27-31). -/
structure PlayerInfo where
  socketId : String
  playerType : Player
  name : String
deriving DecidableEq

/-- A room record (index.ts lines 25-34). -/
structure Room where
  id : String
  players : List PlayerInfo
  boardSize : Nat
  gameState : GameState
deriving DecidableEq

/-- The in-memory room registry, the JS object keyed by room id. -/
def Rooms : Type := String → Option Room

/-- Store a room under a key, as assignment into the registry object. -/
def updateRoom (rooms : Rooms) (roomId : String) (room : Room) : Rooms :=
  fun i => if i = roomId then some room else rooms i

/-- The payload of the join_room handler: either an error event sent only to
the requesting socket, or the game_start broadcast to the room. -/
inductive JoinOut where
  | errorToRequester : String → JoinOut
  | gameStartBroadcast : String → GameState → List PlayerInfo → Nat → JoinOut
deriving DecidableEq

/-- Embeds the join_room handler (index.ts lines 85-110). -/
def handleJoinRoom (rooms : Rooms) (roomId name socketId : String) :
    Rooms × JoinOut :=
  match rooms roomId with
  | none => (rooms, JoinOut.errorToRequester "Sala não encontrada. Verifique o ID.")
  | some room =>
      if 2 ≤ room.players.length then
        (rooms, JoinOut.errorToRequester "A sala já está cheia.")
      else
        let room2 := { room with players := room.players ++ [⟨socketId, Player.B, name⟩] }
        (updateRoom rooms roomId room2,
         JoinOut.gameStartBroadcast roomId room2.gameState room2.players room2.boardSize)

/-- Embeds the roll_dice handler (index.ts lines 113-136).  The second
component is the update_game broadcast, none when nothing is emitted.  The
handler returns early when the room is unknown, and also when roomId is the
empty string (the falsy-roomId debug guard at line 122; real room ids are
five characters, so this guard never fires in a reachable registry). -/
def handleRollDice (rooms : Rooms) (roomId : String) (u : Nat) :
    Rooms × Option GameState :=
  match rooms roomId with
  | none => (rooms, none)
  | some room =>
      if roomId = "" then (rooms, none)
      else
        let g2 := rollDice room.gameState (rolledNumber room.boardSize u)
        (updateRoom rooms roomId { room with gameState := g2 }, some g2)

/-- Embeds the make_move handler at registry level (index.ts lines 139-202).
The second component is the update_game broadcast, none when the room is
unknown or the move is rejected. -/
def handleMakeMove (rooms : Rooms) (roomId : String) (t : Linha) (row col : Nat) :
    Rooms × Option GameState :=
  match rooms roomId with
  | none => (rooms, none)
  | some room =>
      match makeMove room.boardSize room.gameState t row col with
      | none => (rooms, none)
      | some g2 => (updateRoom rooms roomId { room with gameState := g2 }, some g2)

/-- One engine step on a room's game state: a dice roll with an arbitrary
random source, or a make_move request with in-bounds coordinates (accepted
or rejected). -/
inductive Step (size : Nat) : GameState → GameState → Prop
  | roll (g : GameState) (u : Nat) : Step size g (rollDice g (rolledNumber size u))
  | move (g : GameState) (t : Linha) (row col : Nat)
      (h : inBoundsMove size t row col) :
      Step size g (moveResult size g t row col)

/-- Zero or more engine steps. -/
inductive ReachFrom (size : Nat) : GameState → GameState → Prop
  | refl (g : GameState) : ReachFrom size g g
  | tail {g g2 g3 : GameState} :
      ReachFrom size g g2 → Step size g2 g3 → ReachFrom size g g3

/-- States reachable from a fresh game. -/
def Reachable (size : Nat) (g : GameState) : Prop :=
  ReachFrom size (initGame size) g

/-- The grid dimensions a size-N game state keeps throughout its life. -/
def dims (size : Nat) (g : GameState) : Prop :=
  g.horizontalLines.length = size + 1 ∧
  (∀ r, r < size + 1 → (g.horizontalLines.getD r []).length = size) ∧
  g.verticalLines.length = size ∧
  (∀ r, r < size → (g.verticalLines.getD r []).length = size + 1) ∧
  g.squares.length = size ∧
  (∀ r, r < size → (g.squares.getD r []).length = size)

/-- Number of owned squares of a board. -/
def claimedCount : List (List (Option Player)) → Nat
  | [] => 0
  | row :: rest => row.countP (fun o => o.isSome) + claimedCount rest

/-- Every in-bounds line of either orientation is drawn. -/
def allLines (size : Nat) (g : GameState) : Prop :=
  (∀ r c, r ≤ size → c < size → getLine g.horizontalLines r c = true) ∧
  (∀ r c, r < size → c ≤ size → getLine g.verticalLines r c = true)

/-- The reachability invariant: correct dimensions, the score total counts
the owned squares, every owned square has its four edges drawn, and a set
winner means the board total has been reached. -/
def GameInv (size : Nat) (g : GameState) : Prop :=
  dims size g ∧
  g.scores.A + g.scores.B = claimedCount g.squares ∧
  (∀ r c, r < size → c < size → (getSquare g.squares r c).isSome = true →
     closedSquare g r c = true) ∧
  (g.winner.isSome = true → g.scores.A + g.scores.B = size * size)

/-- A full play of the one-square board, used as a concrete run: four rolls
and four line draws; the last draw closes the single square for player B and
ends the game. -/
def s0 : GameState := initGame 1

def s1 : GameState := rollDice s0 (rolledNumber 1 0)

def s2 : GameState := moveResult 1 s1 Linha.HORIZONTAL 0 0

def s3 : GameState := rollDice s2 (rolledNumber 1 0)

def s4 : GameState := moveResult 1 s3 Linha.HORIZONTAL 1 0

def s5 : GameState := rollDice s4 (rolledNumber 1 0)

def s6 : GameState := moveResult 1 s5 Linha.VERTICAL 0 0

def s7 : GameState := rollDice s6 (rolledNumber 1 0)

def s8 : GameState := moveResult 1 s7 Linha.VERTICAL 0 1

def s9 : GameState := rollDice s8 (rolledNumber 1 5)

/-- A concrete room over the fresh two-board, for witnesses. -/
def roomW : Room :=
  { id := "AB12C", players := [⟨"sock1", Player.A, "ana"⟩], boardSize := 2,
    gameState := initGame 2 }

/-- A concrete one-room registry, for witnesses. -/
def roomsW : Rooms := fun i => if i = "AB12C" then some roomW else none

/-! Basic facts about list reads and writes. -/

theorem getD_set_self {α : Type} (l : List α) (i : Nat) (v d : α) (h : i < l.length) :
    (l.set i v).getD i d = v := by
  induction l generalizing i with
  | nil => simp at h
  | cons a t ih =>
      cases i with
      | zero => rfl
      | succ n =>
          simp only [List.set_cons_succ, List.getD_cons_succ]
          exact ih n (by simpa using h)

theorem getD_set_ne {α : Type} (l : List α) (i j : Nat) (v d : α) (h : i ≠ j) :
    (l.set i v).getD j d = l.getD j d := by
  induction l generalizing i j with
  | nil => rfl
  | cons a t ih =>
      cases i with
      | zero =>
          cases j with
          | zero => exact absurd rfl h
          | succ m => rfl
      | succ n =>
          cases j with
          | zero => rfl
          | succ m =>
              simp only [List.set_cons_succ, List.getD_cons_succ]
              exact ih n m (fun e => h (by rw [e]))

theorem getD_mem {α : Type} (l : List α) (i : Nat) (d : α) (h : i < l.length) :
    l.getD i d ∈ l := by
  rw [List.getD_eq_getElem?_getD, List.getElem?_eq_getElem h]
  exact List.getElem_mem h

theorem getD_replicate2 {α : Type} (n : Nat) (x d : α) (i : Nat) :
    (List.replicate n x).getD i d = if i < n then x else d := by
  induction n generalizing i with
  | zero => simp
  | succ m ih =>
      cases i with
      | zero => simp [List.replicate]
      | succ k =>
          simp only [List.replicate, List.getD_cons_succ, ih, Nat.succ_lt_succ_iff]

theorem get2_set2_self {α : Type} (d : α) (g : List (List α)) (r c : Nat) (v : α)
    (hr : r < g.length) (hc : c < (g.getD r []).length) :
    get2 d (set2 g r c v) r c = v := by
  unfold get2 set2
  rw [getD_set_self _ _ _ _ hr, getD_set_self _ _ _ _ hc]

theorem get2_set2_ne {α : Type} (d : α) (g : List (List α)) (r c x y : Nat) (v : α)
    (h : ¬(x = r ∧ y = c)) :
    get2 d (set2 g r c v) x y = get2 d g x y := by
  unfold get2 set2
  by_cases hx : x = r
  · subst hx
    have hy : c ≠ y := fun e => h ⟨rfl, e.symm⟩
    by_cases hr : x < g.length
    · rw [getD_set_self _ _ _ _ hr, getD_set_ne _ _ _ _ _ hy]
    · rw [List.set_eq_of_length_le (Nat.le_of_not_lt hr)]
  · rw [getD_set_ne _ _ _ _ _ (fun e => hx e.symm)]

theorem length_set2 {α : Type} (g : List (List α)) (r c : Nat) (v : α) :
    (set2 g r c v).length = g.length :=
  List.length_set g r _

theorem getD_length_set2 {α : Type} (g : List (List α)) (r c : Nat) (v : α) (x : Nat) :
    ((set2 g r c v).getD x []).length = (g.getD x []).length := by
  unfold set2
  by_cases hx : x = r
  · subst hx
    by_cases hr : x < g.length
    · rw [getD_set_self _ _ _ _ hr, List.length_set]
    · rw [List.set_eq_of_length_le (Nat.le_of_not_lt hr)]
  · rw [getD_set_ne _ _ _ _ _ (fun e => hx e.symm)]

theorem countP_set_some (l : List (Option Player)) (c : Nat) (p : Player)
    (hc : c < l.length) (hnone : l.getD c none = none) :
    (l.set c (some p)).countP (fun o => o.isSome) =
      l.countP (fun o => o.isSome) + 1 := by
  induction l generalizing c with
  | nil => simp at hc
  | cons a t ih =>
      cases c with
      | zero =>
          have ha : a = none := by simpa using hnone
          subst ha
          simp [List.countP_cons]
      | succ m =>
          have hrec := ih m (by simpa using hc) (by simpa using hnone)
          simp only [List.set_cons_succ, List.countP_cons, hrec]
          omega

theorem claimedCount_set2_some (s : List (List (Option Player))) (r c : Nat) (p : Player)
    (hr : r < s.length) (hc : c < (s.getD r []).length)
    (hnone : get2 none s r c = none) :
    claimedCount (set2 s r c (some p)) = claimedCount s + 1 := by
  induction s generalizing r with
  | nil => simp at hr
  | cons row rest ih =>
      cases r with
      | zero =>
          have hc0 : c < row.length := by simpa using hc
          have hn0 : row.getD c none = none := by simpa [get2] using hnone
          show claimedCount ((row.set c (some p)) :: rest) = _
          simp only [claimedCount, countP_set_some row c p hc0 hn0]
          omega
      | succ m =>
          have hrec := ih m (by simpa using hr) (by simpa using hc)
            (by simpa [get2] using hnone)
          show claimedCount (row :: set2 rest m c (some p)) = _
          simp only [claimedCount, hrec]
          omega

theorem claimedCount_le (s : List (List (Option Player))) (n : Nat)
    (h : ∀ i, i < s.length → (s.getD i []).length = n) :
    claimedCount s ≤ s.length * n := by
  induction s with
  | nil => simp [claimedCount]
  | cons row rest ih =>
      have h0 : row.length = n := by simpa using h 0 (by simp)
      have hrest : ∀ i, i < rest.length → (rest.getD i []).length = n := by
        intro i hi
        simpa using h (i + 1) (by simpa using Nat.succ_lt_succ hi)
      have h1 := ih hrest
      have h2 := List.countP_le_length (fun o => o.isSome) (l := row)
      simp only [claimedCount, List.length_cons, Nat.succ_mul]
      omega

theorem claimedCount_full (s : List (List (Option Player))) (n : Nat)
    (h : ∀ i, i < s.length → (s.getD i []).length = n)
    (hfull : claimedCount s = s.length * n) :
    ∀ i j, i < s.length → j < n → (get2 none s i j).isSome = true := by
  induction s with
  | nil => intro i j hi hj; simp at hi
  | cons row rest ih =>
      have h0 : row.length = n := by simpa using h 0 (by simp)
      have hrest : ∀ i, i < rest.length → (rest.getD i []).length = n := by
        intro i hi
        simpa using h (i + 1) (by simpa using Nat.succ_lt_succ hi)
      have hle := claimedCount_le rest n hrest
      have h2 := List.countP_le_length (fun o => o.isSome) (l := row)
      have hcons : row.countP (fun o => o.isSome) + claimedCount rest =
          (rest.length + 1) * n := by simpa [claimedCount] using hfull
      have hrow : row.countP (fun o => o.isSome) = row.length := by
        rw [h0]; nlinarith [hcons, hle, h2, h0]
      have hall := List.countP_eq_length.mp hrow
      have hfull2 : claimedCount rest = rest.length * n := by nlinarith [hcons, hle, h2, h0]
      intro i j hi hj
      cases i with
      | zero =>
          have : row.getD j none ∈ row := getD_mem row j none (by omega)
          simpa [get2] using hall _ this
      | succ m =>
          exact ih hrest hfull2 m j (by simpa using hi) hj

/-! Facts about checkSquare. -/

theorem checkSquare_eq_claim (g : GameState) (r c : Nat)
    (h1 : closedSquare g r c = true) (h2 : getSquare g.squares r c = none) :
    checkSquare g r c =
      { g with squares := set2 g.squares r c (some g.currentPlayer),
               scores := addScore g.scores g.currentPlayer } := by
  unfold checkSquare
  rw [if_pos h1, if_pos h2]

theorem checkSquare_eq_self (g : GameState) (r c : Nat)
    (h : ¬(closedSquare g r c = true ∧ getSquare g.squares r c = none)) :
    checkSquare g r c = g := by
  unfold checkSquare
  by_cases h1 : closedSquare g r c = true
  · rw [if_pos h1, if_neg (fun h2 => h ⟨h1, h2⟩)]
  · rw [if_neg h1]

theorem newlyClosed_iff (g : GameState) (rc : Nat × Nat) :
    newlyClosed g rc = true ↔
      closedSquare g rc.1 rc.2 = true ∧ getSquare g.squares rc.1 rc.2 = none := by
  simp [newlyClosed, Option.isNone_iff_eq_none]

theorem checkSquare_hl (g : GameState) (r c : Nat) :
    (checkSquare g r c).horizontalLines = g.horizontalLines := by
  unfold checkSquare; split_ifs <;> rfl

theorem checkSquare_vl (g : GameState) (r c : Nat) :
    (checkSquare g r c).verticalLines = g.verticalLines := by
  unfold checkSquare; split_ifs <;> rfl

theorem checkSquare_cp (g : GameState) (r c : Nat) :
    (checkSquare g r c).currentPlayer = g.currentPlayer := by
  unfold checkSquare; split_ifs <;> rfl

theorem checkSquare_ml (g : GameState) (r c : Nat) :
    (checkSquare g r c).movesLeft = g.movesLeft := by
  unfold checkSquare; split_ifs <;> rfl

theorem checkSquare_wfr (g : GameState) (r c : Nat) :
    (checkSquare g r c).waitingForRoll = g.waitingForRoll := by
  unfold checkSquare; split_ifs <;> rfl

theorem checkSquare_dv (g : GameState) (r c : Nat) :
    (checkSquare g r c).diceValue = g.diceValue := by
  unfold checkSquare; split_ifs <;> rfl

theorem checkSquare_w (g : GameState) (r c : Nat) :
    (checkSquare g r c).winner = g.winner := by
  unfold checkSquare; split_ifs <;> rfl

theorem closedSquare_checkSquare (g : GameState) (a b x y : Nat) :
    closedSquare (checkSquare g a b) x y = closedSquare g x y := by
  unfold closedSquare
  rw [checkSquare_hl, checkSquare_vl]

theorem checkSquare_squares_len (g : GameState) (r c : Nat) :
    (checkSquare g r c).squares.length = g.squares.length := by
  unfold checkSquare; split_ifs <;> simp [length_set2]

theorem checkSquare_squares_getD_len (g : GameState) (r c x : Nat) :
    ((checkSquare g r c).squares.getD x []).length = (g.squares.getD x []).length := by
  unfold checkSquare
  split_ifs
  · exact getD_length_set2 g.squares r c _ x
  · rfl
  · rfl

theorem getSquare_checkSquare_ne (g : GameState) (a b x y : Nat)
    (h : ¬(x = a ∧ y = b)) :
    getSquare (checkSquare g a b).squares x y = getSquare g.squares x y := by
  unfold checkSquare
  split_ifs with h1 h2
  · exact get2_set2_ne none g.squares a b x y _ h
  · rfl
  · rfl

theorem getSquare_checkSquare_self (g : GameState) (r c : Nat)
    (hr : r < g.squares.length) (hc : c < (g.squares.getD r []).length) :
    getSquare (checkSquare g r c).squares r c =
      if newlyClosed g (r, c) = true then some g.currentPlayer
      else getSquare g.squares r c := by
  by_cases h : newlyClosed g (r, c) = true
  · obtain ⟨h1, h2⟩ := (newlyClosed_iff g (r, c)).mp h
    rw [checkSquare_eq_claim g r c h1 h2, if_pos h]
    exact get2_set2_self none g.squares r c _ hr hc
  · rw [checkSquare_eq_self g r c (fun hh => h ((newlyClosed_iff g (r, c)).mpr hh)),
        if_neg h]

theorem checkSquare_scores (g : GameState) (r c : Nat) :
    (checkSquare g r c).scores =
      if newlyClosed g (r, c) = true then addScore g.scores g.currentPlayer
      else g.scores := by
  by_cases h : newlyClosed g (r, c) = true
  · obtain ⟨h1, h2⟩ := (newlyClosed_iff g (r, c)).mp h
    rw [checkSquare_eq_claim g r c h1 h2, if_pos h]
  · rw [checkSquare_eq_self g r c (fun hh => h ((newlyClosed_iff g (r, c)).mpr hh)),
        if_neg h]

theorem claimedCount_checkSquare (g : GameState) (r c : Nat)
    (hr : r < g.squares.length) (hc : c < (g.squares.getD r []).length) :
    claimedCount (checkSquare g r c).squares =
      claimedCount g.squares + (if newlyClosed g (r, c) = true then 1 else 0) := by
  by_cases h : newlyClosed g (r, c) = true
  · obtain ⟨h1, h2⟩ := (newlyClosed_iff g (r, c)).mp h
    rw [checkSquare_eq_claim g r c h1 h2, if_pos h]
    exact claimedCount_set2_some g.squares r c _ hr hc h2
  · rw [checkSquare_eq_self g r c (fun hh => h ((newlyClosed_iff g (r, c)).mpr hh)),
        if_neg h]
    omega

theorem newlyClosed_checkSquare (g : GameState) (a b : Nat) (rc : Nat × Nat)
    (h : ¬(rc.1 = a ∧ rc.2 = b)) :
    newlyClosed (checkSquare g a b) rc = newlyClosed g rc := by
  unfold newlyClosed
  rw [closedSquare_checkSquare, getSquare_checkSquare_ne _ _ _ _ _ h]

theorem scoreOf_addScore_self (s : Scores) (p : Player) :
    scoreOf (addScore s p) p = scoreOf s p + 1 := by
  cases p <;> rfl

theorem scoreOf_addScore_other (s : Scores) (p : Player) :
    scoreOf (addScore s p) (otherPlayer p) = scoreOf s (otherPlayer p) := by
  cases p <;> rfl

theorem sum_addScore (s : Scores) (p : Player) :
    (addScore s p).A + (addScore s p).B = s.A + s.B + 1 := by
  cases p <;> simp [addScore] <;> omega

/-! Facts about running checkSquare over a list of cells. -/

theorem checkAll_nil (g : GameState) : checkAll g [] = g := rfl

theorem checkAll_cons (g : GameState) (a : Nat × Nat) (l : List (Nat × Nat)) :
    checkAll g (a :: l) = checkAll (checkSquare g a.1 a.2) l := rfl

theorem ne_cell_of_mem {a rc : Nat × Nat} {l2 : List (Nat × Nat)}
    (hna : a ∉ l2) (hm : rc ∈ l2) : ¬(rc.1 = a.1 ∧ rc.2 = a.2) := by
  rintro ⟨h1, h2⟩
  apply hna
  have he : a = rc := by cases a; cases rc; simp_all
  rw [he]; exact hm

theorem checkAll_fields (l : List (Nat × Nat)) (g : GameState) :
    (checkAll g l).horizontalLines = g.horizontalLines ∧
    (checkAll g l).verticalLines = g.verticalLines ∧
    (checkAll g l).currentPlayer = g.currentPlayer ∧
    (checkAll g l).movesLeft = g.movesLeft ∧
    (checkAll g l).waitingForRoll = g.waitingForRoll ∧
    (checkAll g l).diceValue = g.diceValue ∧
    (checkAll g l).winner = g.winner := by
  induction l generalizing g with
  | nil => exact ⟨rfl, rfl, rfl, rfl, rfl, rfl, rfl⟩
  | cons a l2 ih =>
      obtain ⟨h1, h2, h3, h4, h5, h6, h7⟩ := ih (checkSquare g a.1 a.2)
      rw [checkAll_cons]
      exact ⟨h1.trans (checkSquare_hl g a.1 a.2), h2.trans (checkSquare_vl g a.1 a.2),
             h3.trans (checkSquare_cp g a.1 a.2), h4.trans (checkSquare_ml g a.1 a.2),
             h5.trans (checkSquare_wfr g a.1 a.2), h6.trans (checkSquare_dv g a.1 a.2),
             h7.trans (checkSquare_w g a.1 a.2)⟩

theorem checkAll_squares_len (l : List (Nat × Nat)) (g : GameState) :
    (checkAll g l).squares.length = g.squares.length ∧
    ∀ x, ((checkAll g l).squares.getD x []).length = (g.squares.getD x []).length := by
  induction l generalizing g with
  | nil => exact ⟨rfl, fun _ => rfl⟩
  | cons a l2 ih =>
      obtain ⟨h1, h2⟩ := ih (checkSquare g a.1 a.2)
      rw [checkAll_cons]
      exact ⟨h1.trans (checkSquare_squares_len g a.1 a.2),
             fun x => (h2 x).trans (checkSquare_squares_getD_len g a.1 a.2 x)⟩

theorem getSquare_checkAll_ne (l : List (Nat × Nat)) (g : GameState) (x y : Nat)
    (h : (x, y) ∉ l) :
    getSquare (checkAll g l).squares x y = getSquare g.squares x y := by
  induction l generalizing g with
  | nil => rfl
  | cons a l2 ih =>
      rw [checkAll_cons]
      have hne : ¬(x = a.1 ∧ y = a.2) := by
        rintro ⟨rfl, rfl⟩
        exact h (by simp)
      rw [ih (checkSquare g a.1 a.2) (fun hm => h (List.mem_cons_of_mem _ hm)),
          getSquare_checkSquare_ne g a.1 a.2 x y hne]

theorem getSquare_checkAll_mem (l : List (Nat × Nat)) (g : GameState)
    (hnd : l.Nodup)
    (hbd : ∀ rc ∈ l, rc.1 < g.squares.length ∧ rc.2 < (g.squares.getD rc.1 []).length) :
    ∀ rc ∈ l, getSquare (checkAll g l).squares rc.1 rc.2 =
      if newlyClosed g rc = true then some g.currentPlayer
      else getSquare g.squares rc.1 rc.2 := by
  induction l generalizing g with
  | nil => intro rc hm; simp at hm
  | cons a l2 ih =>
      obtain ⟨hna, hnd2⟩ := List.nodup_cons.mp hnd
      intro rc hm
      rw [checkAll_cons]
      rcases List.mem_cons.mp hm with he | hm2
      · subst he
        have hb := hbd rc (List.mem_cons_self _ _)
        have hnotin : (rc.1, rc.2) ∉ l2 := by
          intro hmem; exact hna (by simpa using hmem)
        rw [getSquare_checkAll_ne l2 (checkSquare g rc.1 rc.2) rc.1 rc.2 hnotin]
        exact getSquare_checkSquare_self g rc.1 rc.2 hb.1 hb.2
      · have hane := ne_cell_of_mem hna hm2
        have hbd2 : ∀ rc2 ∈ l2, rc2.1 < (checkSquare g a.1 a.2).squares.length ∧
            rc2.2 < ((checkSquare g a.1 a.2).squares.getD rc2.1 []).length := by
          intro rc2 hm3
          rw [checkSquare_squares_len, checkSquare_squares_getD_len]
          exact hbd rc2 (List.mem_cons_of_mem _ hm3)
        rw [ih (checkSquare g a.1 a.2) hnd2 hbd2 rc hm2,
            newlyClosed_checkSquare g a.1 a.2 rc hane,
            getSquare_checkSquare_ne g a.1 a.2 rc.1 rc.2 hane, checkSquare_cp]

theorem checkAll_counts (l : List (Nat × Nat)) (g : GameState)
    (hnd : l.Nodup)
    (hbd : ∀ rc ∈ l, rc.1 < g.squares.length ∧ rc.2 < (g.squares.getD rc.1 []).length) :
    scoreOf (checkAll g l).scores g.currentPlayer =
      scoreOf g.scores g.currentPlayer + (l.filter (newlyClosed g)).length ∧
    scoreOf (checkAll g l).scores (otherPlayer g.currentPlayer) =
      scoreOf g.scores (otherPlayer g.currentPlayer) ∧
    (checkAll g l).scores.A + (checkAll g l).scores.B =
      g.scores.A + g.scores.B + (l.filter (newlyClosed g)).length ∧
    claimedCount (checkAll g l).squares =
      claimedCount g.squares + (l.filter (newlyClosed g)).length := by
  induction l generalizing g with
  | nil => refine ⟨?_, ?_, ?_, ?_⟩ <;> rw [checkAll_nil] <;> simp
  | cons a l2 ih =>
      obtain ⟨hna, hnd2⟩ := List.nodup_cons.mp hnd
      have hb := hbd a (List.mem_cons_self _ _)
      have hbd2 : ∀ rc2 ∈ l2, rc2.1 < (checkSquare g a.1 a.2).squares.length ∧
          rc2.2 < ((checkSquare g a.1 a.2).squares.getD rc2.1 []).length := by
        intro rc2 hm3
        rw [checkSquare_squares_len, checkSquare_squares_getD_len]
        exact hbd rc2 (List.mem_cons_of_mem _ hm3)
      obtain ⟨i1, i2, i3, i4⟩ := ih (checkSquare g a.1 a.2) hnd2 hbd2
      have hfilt : l2.filter (newlyClosed (checkSquare g a.1 a.2)) =
          l2.filter (newlyClosed g) :=
        List.filter_congr
          (fun rc hm => newlyClosed_checkSquare g a.1 a.2 rc (ne_cell_of_mem hna hm))
      have hsc := checkSquare_scores g a.1 a.2
      have hclaim := claimedCount_checkSquare g a.1 a.2 hb.1 hb.2
      rw [checkAll_cons]
      rw [checkSquare_cp] at i1 i2
      rw [hfilt] at i1 i3 i4
      by_cases hn : newlyClosed g a = true
      · have hnpair : newlyClosed g (a.1, a.2) = true := hn
        rw [if_pos hnpair] at hsc hclaim
        rw [List.filter_cons, if_pos hn]
        refine ⟨?_, ?_, ?_, ?_⟩
        · rw [i1, hsc, scoreOf_addScore_self]
          simp [List.length_cons]
          omega
        · rw [i2, hsc, scoreOf_addScore_other]
        · rw [i3, hsc, sum_addScore]
          simp [List.length_cons]
          omega
        · rw [i4, hclaim]
          simp [List.length_cons]
          omega
      · have hnpair : ¬newlyClosed g (a.1, a.2) = true := hn
        rw [if_neg hnpair] at hsc hclaim
        rw [List.filter_cons, if_neg hn]
        exact ⟨by rw [i1, hsc], by rw [i2, hsc], by rw [i3, hsc], by rw [i4, hclaim]; omega⟩

/-! Bridging the candidate checks of the handler to checkAll, and
field-preservation facts for the remaining phases. -/

theorem scorePhase_eq_checkAll (size : Nat) (g : GameState) (t : Linha) (row col : Nat) :
    scorePhase size g t row col = checkAll g (candidateSquares t row col size) := by
  cases t <;> simp only [scorePhase, candidateSquares] <;> split_ifs <;> rfl

theorem candidateSquares_nodup (t : Linha) (row col size : Nat) :
    (candidateSquares t row col size).Nodup := by
  cases t <;> simp only [candidateSquares] <;> split_ifs <;>
    simp [Prod.ext_iff] <;> omega

theorem candidateSquares_bounds (size : Nat) (t : Linha) (row col : Nat)
    (hin : inBoundsMove size t row col) (g : GameState) (hd : dims size g) :
    ∀ rc ∈ candidateSquares t row col size,
      rc.1 < g.squares.length ∧ rc.2 < (g.squares.getD rc.1 []).length := by
  intro rc hm
  have h5 : g.squares.length = size := hd.2.2.2.2.1
  have h6 := hd.2.2.2.2.2
  have hb : rc.1 < size ∧ rc.2 < size := by
    cases t with
    | HORIZONTAL =>
        obtain ⟨hr, hc⟩ := hin
        simp only [candidateSquares, List.mem_append] at hm
        rcases hm with hm | hm
        · by_cases h : row < size
          · rw [if_pos h] at hm
            simp only [List.mem_singleton] at hm
            subst hm
            exact ⟨h, hc⟩
          · rw [if_neg h] at hm
            simp at hm
        · by_cases h : 0 < row
          · rw [if_pos h] at hm
            simp only [List.mem_singleton] at hm
            subst hm
            exact ⟨by omega, hc⟩
          · rw [if_neg h] at hm
            simp at hm
    | VERTICAL =>
        obtain ⟨hr, hc⟩ := hin
        simp only [candidateSquares, List.mem_append] at hm
        rcases hm with hm | hm
        · by_cases h : col < size
          · rw [if_pos h] at hm
            simp only [List.mem_singleton] at hm
            subst hm
            exact ⟨hr, h⟩
          · rw [if_neg h] at hm
            simp at hm
        · by_cases h : 0 < col
          · rw [if_pos h] at hm
            simp only [List.mem_singleton] at hm
            subst hm
            exact ⟨hr, by omega⟩
          · rw [if_neg h] at hm
            simp at hm
  refine ⟨by rw [h5]; exact hb.1, ?_⟩
  rw [h6 rc.1 hb.1]
  exact hb.2

theorem drawPhase_squares (g : GameState) (t : Linha) (row col : Nat) :
    (drawPhase g t row col).squares = g.squares := by cases t <;> rfl

theorem drawPhase_scores (g : GameState) (t : Linha) (row col : Nat) :
    (drawPhase g t row col).scores = g.scores := by cases t <;> rfl

theorem drawPhase_cp (g : GameState) (t : Linha) (row col : Nat) :
    (drawPhase g t row col).currentPlayer = g.currentPlayer := by cases t <;> rfl

theorem drawPhase_wfr (g : GameState) (t : Linha) (row col : Nat) :
    (drawPhase g t row col).waitingForRoll = g.waitingForRoll := by cases t <;> rfl

theorem drawPhase_dv (g : GameState) (t : Linha) (row col : Nat) :
    (drawPhase g t row col).diceValue = g.diceValue := by cases t <;> rfl

theorem drawPhase_w (g : GameState) (t : Linha) (row col : Nat) :
    (drawPhase g t row col).winner = g.winner := by cases t <;> rfl

theorem drawPhase_ml (g : GameState) (t : Linha) (row col : Nat) :
    (drawPhase g t row col).movesLeft = g.movesLeft - 1 := by cases t <;> rfl

theorem drawPhase_hl_horiz (g : GameState) (row col : Nat) :
    (drawPhase g Linha.HORIZONTAL row col).horizontalLines =
      set2 g.horizontalLines row col true := rfl

theorem drawPhase_vl_horiz (g : GameState) (row col : Nat) :
    (drawPhase g Linha.HORIZONTAL row col).verticalLines = g.verticalLines := rfl

theorem drawPhase_hl_vert (g : GameState) (row col : Nat) :
    (drawPhase g Linha.VERTICAL row col).horizontalLines = g.horizontalLines := rfl

theorem drawPhase_vl_vert (g : GameState) (row col : Nat) :
    (drawPhase g Linha.VERTICAL row col).verticalLines =
      set2 g.verticalLines row col true := rfl

theorem turnPhase_hl (g : GameState) : (turnPhase g).horizontalLines = g.horizontalLines := by
  unfold turnPhase; split_ifs <;> rfl

theorem turnPhase_vl (g : GameState) : (turnPhase g).verticalLines = g.verticalLines := by
  unfold turnPhase; split_ifs <;> rfl

theorem turnPhase_squares (g : GameState) : (turnPhase g).squares = g.squares := by
  unfold turnPhase; split_ifs <;> rfl

theorem turnPhase_scores (g : GameState) : (turnPhase g).scores = g.scores := by
  unfold turnPhase; split_ifs <;> rfl

theorem turnPhase_ml (g : GameState) : (turnPhase g).movesLeft = g.movesLeft := by
  unfold turnPhase; split_ifs <;> rfl

theorem turnPhase_w (g : GameState) : (turnPhase g).winner = g.winner := by
  unfold turnPhase; split_ifs <;> rfl

theorem turnPhase_eq_zero (g : GameState) (h : g.movesLeft = 0) :
    turnPhase g = { g with currentPlayer := otherPlayer g.currentPlayer,
                           waitingForRoll := true, diceValue := none } := by
  unfold turnPhase; rw [if_pos h]

theorem turnPhase_eq_pos (g : GameState) (h : ¬g.movesLeft = 0) :
    turnPhase g = g := by
  unfold turnPhase; rw [if_neg h]

theorem endPhase_hl (size : Nat) (g : GameState) :
    (endPhase size g).horizontalLines = g.horizontalLines := by
  unfold endPhase; split_ifs <;> rfl

theorem endPhase_vl (size : Nat) (g : GameState) :
    (endPhase size g).verticalLines = g.verticalLines := by
  unfold endPhase; split_ifs <;> rfl

theorem endPhase_squares (size : Nat) (g : GameState) :
    (endPhase size g).squares = g.squares := by
  unfold endPhase; split_ifs <;> rfl

theorem endPhase_scores (size : Nat) (g : GameState) :
    (endPhase size g).scores = g.scores := by
  unfold endPhase; split_ifs <;> rfl

theorem endPhase_cp (size : Nat) (g : GameState) :
    (endPhase size g).currentPlayer = g.currentPlayer := by
  unfold endPhase; split_ifs <;> rfl

theorem endPhase_dv (size : Nat) (g : GameState) :
    (endPhase size g).diceValue = g.diceValue := by
  unfold endPhase; split_ifs <;> rfl

theorem endPhase_eq_end (size : Nat) (g : GameState)
    (h : g.scores.A + g.scores.B = size * size) :
    endPhase size g =
      { g with movesLeft := 0, waitingForRoll := false,
               winner := some (if g.scores.A > g.scores.B then "A"
                               else if g.scores.B > g.scores.A then "B" else "Draw") } := by
  unfold endPhase; rw [if_pos h]

theorem endPhase_eq_notend (size : Nat) (g : GameState)
    (h : ¬g.scores.A + g.scores.B = size * size) :
    endPhase size g = g := by
  unfold endPhase; rw [if_neg h]

/-! Characterization of make_move acceptance and rejection. -/

theorem makeMove_some_iff (size : Nat) (g : GameState) (t : Linha) (row col : Nat)
    (g2 : GameState) :
    makeMove size g t row col = some g2 ↔
      g.waitingForRoll = false ∧ 0 < g.movesLeft ∧
      ¬(t = Linha.HORIZONTAL ∧ getLine g.horizontalLines row col = true) ∧
      ¬(t = Linha.VERTICAL ∧ getLine g.verticalLines row col = true) ∧
      g2 = endPhase size (turnPhase (scorePhase size (drawPhase g t row col) t row col)) := by
  unfold makeMove
  split_ifs with h1 h2 h3 h4
  · exact iff_of_false (by simp) (by rintro ⟨ha, _⟩; rw [h1] at ha; cases ha)
  · exact iff_of_false (by simp) (by rintro ⟨_, hb, _⟩; omega)
  · exact iff_of_false (by simp) (by rintro ⟨_, _, hc, _⟩; exact hc h3)
  · exact iff_of_false (by simp) (by rintro ⟨_, _, _, hd2, _⟩; exact hd2 h4)
  · constructor
    · intro h
      refine ⟨?_, by omega, h3, h4, (Option.some.inj h).symm⟩
      simp only [Bool.not_eq_true] at h1
      exact h1
    · rintro ⟨_, _, _, _, rfl⟩
      rfl

theorem makeMove_none_waiting (size : Nat) (g : GameState) (t : Linha) (row col : Nat)
    (h : g.waitingForRoll = true) : makeMove size g t row col = none := by
  unfold makeMove; rw [if_pos h]

theorem makeMove_none_nomoves (size : Nat) (g : GameState) (t : Linha) (row col : Nat)
    (h : g.movesLeft ≤ 0) : makeMove size g t row col = none := by
  unfold makeMove; split_ifs <;> first | rfl | omega

theorem makeMove_none_hline (size : Nat) (g : GameState) (row col : Nat)
    (h : getLine g.horizontalLines row col = true) :
    makeMove size g Linha.HORIZONTAL row col = none := by
  unfold makeMove
  split_ifs with h1 h2 h3 h4
  any_goals rfl
  · exact absurd ⟨rfl, h⟩ h3

theorem makeMove_none_vline (size : Nat) (g : GameState) (row col : Nat)
    (h : getLine g.verticalLines row col = true) :
    makeMove size g Linha.VERTICAL row col = none := by
  unfold makeMove
  split_ifs with h1 h2 h3 h4
  any_goals rfl
  · exact absurd ⟨rfl, h⟩ h4

theorem moveBody_hl (size : Nat) (g : GameState) (t : Linha) (row col : Nat) :
    (endPhase size (turnPhase (scorePhase size (drawPhase g t row col) t row col))).horizontalLines
      = (drawPhase g t row col).horizontalLines := by
  rw [endPhase_hl, turnPhase_hl, scorePhase_eq_checkAll]
  exact (checkAll_fields _ _).1

theorem moveBody_vl (size : Nat) (g : GameState) (t : Linha) (row col : Nat) :
    (endPhase size (turnPhase (scorePhase size (drawPhase g t row col) t row col))).verticalLines
      = (drawPhase g t row col).verticalLines := by
  rw [endPhase_vl, turnPhase_vl, scorePhase_eq_checkAll]
  exact (checkAll_fields _ _).2.1

/-! Lines only ever turn true, and the dimension and reachability
invariants. -/

theorem getLine_set2_mono (l : List (List Bool)) (a b x y : Nat)
    (h : getLine l x y = true) : getLine (set2 l a b true) x y = true := by
  by_cases he : x = a ∧ y = b
  · obtain ⟨rfl, rfl⟩ := he
    by_cases hr : x < l.length
    · by_cases hc2 : y < (l.getD x []).length
      · unfold getLine
        rw [get2_set2_self _ _ _ _ _ hr hc2]
      · unfold getLine get2 at h ⊢
        unfold set2
        rw [getD_set_self _ _ _ _ hr, List.set_eq_of_length_le (Nat.le_of_not_lt hc2)]
        exact h
    · unfold getLine get2 at h ⊢
      unfold set2
      rw [List.set_eq_of_length_le (Nat.le_of_not_lt hr)]
      exact h
  · unfold getLine
    rw [get2_set2_ne false l a b x y true he]
    exact h

theorem closedSquare_drawPhase_mono (g : GameState) (t : Linha) (row col x y : Nat)
    (h : closedSquare g x y = true) :
    closedSquare (drawPhase g t row col) x y = true := by
  unfold closedSquare at h ⊢
  simp only [Bool.and_eq_true] at h ⊢
  obtain ⟨⟨⟨h1, h2⟩, h3⟩, h4⟩ := h
  cases t with
  | VERTICAL =>
      rw [drawPhase_hl_vert, drawPhase_vl_vert]
      exact ⟨⟨⟨h1, h2⟩, getLine_set2_mono _ _ _ _ _ h3⟩, getLine_set2_mono _ _ _ _ _ h4⟩
  | HORIZONTAL =>
      rw [drawPhase_hl_horiz, drawPhase_vl_horiz]
      exact ⟨⟨⟨getLine_set2_mono _ _ _ _ _ h1, getLine_set2_mono _ _ _ _ _ h2⟩, h3⟩, h4⟩

theorem dims_drawPhase (size : Nat) (g : GameState) (t : Linha) (row col : Nat)
    (hd : dims size g) : dims size (drawPhase g t row col) := by
  obtain ⟨d1, d2, d3, d4, d5, d6⟩ := hd
  cases t with
  | VERTICAL =>
      refine ⟨d1, d2, ?_, ?_, d5, d6⟩
      · rw [drawPhase_vl_vert, length_set2]; exact d3
      · intro r hr; rw [drawPhase_vl_vert, getD_length_set2]; exact d4 r hr
  | HORIZONTAL =>
      refine ⟨?_, ?_, d3, d4, d5, d6⟩
      · rw [drawPhase_hl_horiz, length_set2]; exact d1
      · intro r hr; rw [drawPhase_hl_horiz, getD_length_set2]; exact d2 r hr

theorem dims_checkAll (size : Nat) (g : GameState) (l : List (Nat × Nat))
    (hd : dims size g) : dims size (checkAll g l) := by
  obtain ⟨hlen, hgd⟩ := checkAll_squares_len l g
  obtain ⟨f1, f2, _⟩ := checkAll_fields l g
  obtain ⟨d1, d2, d3, d4, d5, d6⟩ := hd
  exact ⟨by rw [f1]; exact d1, by intro r hr; rw [f1]; exact d2 r hr,
         by rw [f2]; exact d3, by intro r hr; rw [f2]; exact d4 r hr,
         by rw [hlen]; exact d5, by intro r hr; rw [hgd r]; exact d6 r hr⟩

theorem dims_turnPhase (size : Nat) (g : GameState) (hd : dims size g) :
    dims size (turnPhase g) := by
  obtain ⟨d1, d2, d3, d4, d5, d6⟩ := hd
  exact ⟨by rw [turnPhase_hl]; exact d1, by intro r hr; rw [turnPhase_hl]; exact d2 r hr,
         by rw [turnPhase_vl]; exact d3, by intro r hr; rw [turnPhase_vl]; exact d4 r hr,
         by rw [turnPhase_squares]; exact d5,
         by intro r hr; rw [turnPhase_squares]; exact d6 r hr⟩

theorem dims_endPhase (size : Nat) (g : GameState) (hd : dims size g) :
    dims size (endPhase size g) := by
  obtain ⟨d1, d2, d3, d4, d5, d6⟩ := hd
  exact ⟨by rw [endPhase_hl]; exact d1, by intro r hr; rw [endPhase_hl]; exact d2 r hr,
         by rw [endPhase_vl]; exact d3, by intro r hr; rw [endPhase_vl]; exact d4 r hr,
         by rw [endPhase_squares]; exact d5,
         by intro r hr; rw [endPhase_squares]; exact d6 r hr⟩

theorem claimedCount_replicate (n m : Nat) :
    claimedCount (List.replicate n (List.replicate m (none : Option Player))) = 0 := by
  induction n with
  | zero => rfl
  | succ k ih =>
      have h0 : (List.replicate m (none : Option Player)).countP (fun o => o.isSome) = 0 :=
        List.countP_eq_zero.mpr (fun a ha => by rw [List.eq_of_mem_replicate ha]; simp)
      simp [List.replicate, claimedCount, h0, ih]

theorem dims_initGame (size : Nat) : dims size (initGame size) := by
  refine ⟨by simp [initGame], ?_, by simp [initGame], ?_, by simp [initGame], ?_⟩ <;>
    intro r hr <;> simp [initGame, getD_replicate2, hr]

theorem gameInv_initGame (size : Nat) : GameInv size (initGame size) := by
  refine ⟨dims_initGame size, ?_, ?_, ?_⟩
  · show 0 + 0 = claimedCount (List.replicate size (List.replicate size none))
    rw [claimedCount_replicate]
  · intro r c hr hc hsome
    have hn : getSquare (initGame size).squares r c = none := by
      simp only [initGame, getSquare, get2, getD_replicate2]
      split <;> simp [getD_replicate2]
    rw [hn] at hsome
    cases hsome
  · intro hw
    simp [initGame] at hw

theorem gameInv_rollDice (size : Nat) (g : GameState) (n : Nat)
    (h : GameInv size g) : GameInv size (rollDice g n) := h

theorem gameInv_moveResult (size : Nat) (g : GameState) (t : Linha) (row col : Nat)
    (hin : inBoundsMove size t row col) (h : GameInv size g) :
    GameInv size (moveResult size g t row col) := by
  cases hm : makeMove size g t row col with
  | none =>
      unfold moveResult
      rw [hm]
      exact h
  | some g2 =>
      unfold moveResult
      rw [hm]
      show GameInv size g2
      obtain ⟨hwf, hml, hnh, hnv, hbody⟩ := (makeMove_some_iff size g t row col g2).mp hm
      subst hbody
      obtain ⟨hd, hsum, hclosed, hwin⟩ := h
      have hd1 : dims size (drawPhase g t row col) :=
        dims_drawPhase size g t row col hd
      have hnd := candidateSquares_nodup t row col size
      have hbd := candidateSquares_bounds size t row col hin (drawPhase g t row col) hd1
      rw [scorePhase_eq_checkAll]
      obtain ⟨c1, c2, c3, c4⟩ := checkAll_counts (candidateSquares t row col size)
        (drawPhase g t row col) hnd hbd
      rw [drawPhase_scores] at c3
      rw [drawPhase_squares] at c4
      have hd3 : dims size (checkAll (drawPhase g t row col) (candidateSquares t row col size)) :=
        dims_checkAll size _ _ hd1
      have hd4 : dims size (endPhase size (turnPhase (checkAll (drawPhase g t row col)
          (candidateSquares t row col size)))) :=
        dims_endPhase size _ (dims_turnPhase size _ hd3)
      refine ⟨hd4, ?_, ?_, ?_⟩
      · rw [endPhase_scores, turnPhase_scores, endPhase_squares, turnPhase_squares, c3, c4,
            hsum]
      · intro r c hr hc hsome
        rw [endPhase_squares, turnPhase_squares] at hsome
        have hlineseq : closedSquare (endPhase size (turnPhase (checkAll (drawPhase g t row col)
            (candidateSquares t row col size)))) r c =
            closedSquare (drawPhase g t row col) r c := by
          unfold closedSquare
          rw [endPhase_hl, turnPhase_hl, endPhase_vl, turnPhase_vl,
              (checkAll_fields (candidateSquares t row col size) (drawPhase g t row col)).1,
              (checkAll_fields (candidateSquares t row col size) (drawPhase g t row col)).2.1]
        rw [hlineseq]
        by_cases hmem : (r, c) ∈ candidateSquares t row col size
        · have hchar := getSquare_checkAll_mem (candidateSquares t row col size)
            (drawPhase g t row col) hnd hbd (r, c) hmem
          by_cases hn : newlyClosed (drawPhase g t row col) (r, c) = true
          · exact ((newlyClosed_iff (drawPhase g t row col) (r, c)).mp hn).1
          · rw [hchar, if_neg hn, drawPhase_squares] at hsome
            exact closedSquare_drawPhase_mono g t row col r c (hclosed r c hr hc hsome)
        · rw [getSquare_checkAll_ne (candidateSquares t row col size)
              (drawPhase g t row col) r c hmem, drawPhase_squares] at hsome
          exact closedSquare_drawPhase_mono g t row col r c (hclosed r c hr hc hsome)
      · intro hw
        rw [endPhase_scores, turnPhase_scores]
        by_cases hend : (checkAll (drawPhase g t row col)
            (candidateSquares t row col size)).scores.A +
            (checkAll (drawPhase g t row col) (candidateSquares t row col size)).scores.B =
            size * size
        · exact hend
        · exfalso
          have hend2 : ¬((turnPhase (checkAll (drawPhase g t row col)
              (candidateSquares t row col size))).scores.A +
              (turnPhase (checkAll (drawPhase g t row col)
              (candidateSquares t row col size))).scores.B = size * size) := by
            rw [turnPhase_scores]; exact hend
          rw [endPhase_eq_notend _ _ hend2, turnPhase_w,
              (checkAll_fields (candidateSquares t row col size)
                (drawPhase g t row col)).2.2.2.2.2.2, drawPhase_w] at hw
          have hsumg := hwin hw
          have hrows : ∀ i, i < (checkAll (drawPhase g t row col)
              (candidateSquares t row col size)).squares.length →
              (((checkAll (drawPhase g t row col)
                (candidateSquares t row col size)).squares.getD i []).length) = size := by
            intro i hi
            refine hd3.2.2.2.2.2 i ?_
            rw [← hd3.2.2.2.2.1]
            exact hi
          have hle := claimedCount_le (checkAll (drawPhase g t row col)
            (candidateSquares t row col size)).squares size hrows
          rw [hd3.2.2.2.2.1] at hle
          omega

theorem step_gameInv (size : Nat) (g g2 : GameState) (h : GameInv size g)
    (hs : Step size g g2) : GameInv size g2 := by
  cases hs with
  | roll u => exact gameInv_rollDice size g (rolledNumber size u) h
  | move t row col hin => exact gameInv_moveResult size g t row col hin h

theorem reachFrom_gameInv (size : Nat) (g g2 : GameState) (h : GameInv size g)
    (hres : ReachFrom size g g2) : GameInv size g2 := by
  induction hres with
  | refl => exact h
  | tail hr2 hs ih => exact step_gameInv size _ _ ih hs

theorem reachable_gameInv (size : Nat) (g : GameState) (h : Reachable size g) :
    GameInv size g :=
  reachFrom_gameInv size (initGame size) g (gameInv_initGame size) h

theorem winner_allLines (size : Nat) (g : GameState) (hinv : GameInv size g)
    (hw : g.winner.isSome = true) : allLines size g := by
  obtain ⟨hd, hsum, hclosed, hwin⟩ := hinv
  have hfullsum := hwin hw
  obtain ⟨d1, d2, d3, d4, d5, d6⟩ := hd
  have hrows : ∀ i, i < g.squares.length → (g.squares.getD i []).length = size := by
    intro i hi
    exact d6 i (by rwa [d5] at hi)
  have hfull : claimedCount g.squares = g.squares.length * size := by
    rw [d5, ← hsum, hfullsum]
  have hallsq : ∀ i j, i < size → j < size → (get2 none g.squares i j).isSome = true := by
    intro i j hi hj
    exact claimedCount_full g.squares size hrows hfull i j (by rwa [d5]) hj
  have hclosedAll : ∀ i j, i < size → j < size → closedSquare g i j = true := by
    intro i j hi hj
    exact hclosed i j hi hj (hallsq i j hi hj)
  constructor
  · intro r c hr hc
    by_cases h : r < size
    · have hc2 := hclosedAll r c h hc
      unfold closedSquare at hc2
      simp only [Bool.and_eq_true] at hc2
      exact hc2.1.1.1
    · have hrs : r = size := by omega
      have hsz : 0 < size := by omega
      have hc2 := hclosedAll (size - 1) c (by omega) hc
      unfold closedSquare at hc2
      simp only [Bool.and_eq_true] at hc2
      have h2 := hc2.1.1.2
      have he : size - 1 + 1 = size := by omega
      rw [he] at h2
      rw [hrs]
      exact h2
  · intro r c hr hc
    by_cases h : c < size
    · have hc2 := hclosedAll r c hr h
      unfold closedSquare at hc2
      simp only [Bool.and_eq_true] at hc2
      exact hc2.1.2
    · have hcs : c = size := by omega
      have hsz : 0 < size := by omega
      have hc2 := hclosedAll r (size - 1) hr (by omega)
      unfold closedSquare at hc2
      simp only [Bool.and_eq_true] at hc2
      have h2 := hc2.2
      have he : size - 1 + 1 = size := by omega
      rw [he] at h2
      rw [hcs]
      exact h2

theorem makeMove_none_allLines (size : Nat) (g : GameState) (t : Linha) (row col : Nat)
    (hall : allLines size g) (hin : inBoundsMove size t row col) :
    makeMove size g t row col = none := by
  cases t with
  | HORIZONTAL =>
      obtain ⟨hr, hc⟩ := hin
      exact makeMove_none_hline size g row col (hall.1 row col hr hc)
  | VERTICAL =>
      obtain ⟨hr, hc⟩ := hin
      exact makeMove_none_vline size g row col (hall.2 row col hr hc)

theorem allLines_of_lines_eq (size : Nat) (g gmid : GameState)
    (e1 : gmid.horizontalLines = g.horizontalLines)
    (e2 : gmid.verticalLines = g.verticalLines)
    (hall : allLines size g) : allLines size gmid := by
  constructor
  · intro r c h1 h2
    rw [e1]
    exact hall.1 r c h1 h2
  · intro r c h1 h2
    rw [e2]
    exact hall.2 r c h1 h2

theorem reachFrom_frozen (size : Nat) (g g2 : GameState) (hall : allLines size g)
    (hres : ReachFrom size g g2) :
    g2.horizontalLines = g.horizontalLines ∧ g2.verticalLines = g.verticalLines := by
  induction hres with
  | refl => exact ⟨rfl, rfl⟩
  | tail hr2 hs ih =>
      rename_i gmid gfin
      obtain ⟨e1, e2⟩ := ih
      cases hs with
      | roll u => exact ⟨e1, e2⟩
      | move t row col hin =>
          have hall2 : allLines size gmid := allLines_of_lines_eq size g gmid e1 e2 hall
          have hnone := makeMove_none_allLines size gmid t row col hall2 hin
          unfold moveResult
          rw [hnone]
          exact ⟨e1, e2⟩

/-! Unfolding facts for the registry-level handlers. -/

theorem updateRoom_apply (rooms : Rooms) (roomId : String) (room : Room) (i : String) :
    updateRoom rooms roomId room i = if i = roomId then some room else rooms i := rfl

theorem handleMakeMove_none_room (rooms : Rooms) (roomId : String) (t : Linha)
    (row col : Nat) (h : rooms roomId = none) :
    handleMakeMove rooms roomId t row col = (rooms, none) := by
  unfold handleMakeMove; rw [h]

theorem handleMakeMove_some_room (rooms : Rooms) (roomId : String) (t : Linha)
    (row col : Nat) (room : Room) (h : rooms roomId = some room) :
    handleMakeMove rooms roomId t row col =
      (match makeMove room.boardSize room.gameState t row col with
       | none => (rooms, none)
       | some g2 => (updateRoom rooms roomId { room with gameState := g2 }, some g2)) := by
  unfold handleMakeMove; rw [h]

theorem handleRollDice_none_room (rooms : Rooms) (roomId : String) (u : Nat)
    (h : rooms roomId = none) :
    handleRollDice rooms roomId u = (rooms, none) := by
  unfold handleRollDice; rw [h]

theorem handleRollDice_some_room (rooms : Rooms) (roomId : String) (u : Nat)
    (room : Room) (h : rooms roomId = some room) :
    handleRollDice rooms roomId u =
      (if roomId = "" then (rooms, none)
       else (updateRoom rooms roomId
               { room with gameState := rollDice room.gameState (rolledNumber room.boardSize u) },
             some (rollDice room.gameState (rolledNumber room.boardSize u)))) := by
  unfold handleRollDice; rw [h]

theorem handleJoinRoom_none_room (rooms : Rooms) (roomId name socketId : String)
    (h : rooms roomId = none) :
    handleJoinRoom rooms roomId name socketId =
      (rooms, JoinOut.errorToRequester "Sala não encontrada. Verifique o ID.") := by
  unfold handleJoinRoom; rw [h]

theorem handleJoinRoom_some_room (rooms : Rooms) (roomId name socketId : String)
    (room : Room) (h : rooms roomId = some room) :
    handleJoinRoom rooms roomId name socketId =
      (if 2 ≤ room.players.length then
         (rooms, JoinOut.errorToRequester "A sala já está cheia.")
       else
         (updateRoom rooms roomId
            { room with players := room.players ++ [⟨socketId, Player.B, name⟩] },
          JoinOut.gameStartBroadcast roomId room.gameState
            (room.players ++ [⟨socketId, Player.B, name⟩]) room.boardSize)) := by
  unfold handleJoinRoom; rw [h]

/-- C7: for every positive board size N, initialize(N) returns a state with
(N+1) by N horizontal lines all false, N by (N+1) vertical lines all false,
all N squared squares unclaimed, both scores zero, current player A, no
moves left, no dice value, waitingForRoll set, and no winner. -/
theorem c7_initial_state (size : Nat) (hpos : 0 < size) :
    (initGame size).horizontalLines.length = size + 1 ∧
    (∀ row ∈ (initGame size).horizontalLines, row.length = size ∧ ∀ b ∈ row, b = false) ∧
    (initGame size).verticalLines.length = size ∧
    (∀ row ∈ (initGame size).verticalLines, row.length = size + 1 ∧ ∀ b ∈ row, b = false) ∧
    (initGame size).squares.length = size ∧
    (∀ row ∈ (initGame size).squares, row.length = size ∧ ∀ x ∈ row, x = none) ∧
    (initGame size).currentPlayer = Player.A ∧
    (initGame size).scores.A = 0 ∧ (initGame size).scores.B = 0 ∧
    (initGame size).movesLeft = 0 ∧
    (initGame size).diceValue = none ∧
    (initGame size).waitingForRoll = true ∧
    (initGame size).winner = none := by
  refine ⟨by simp [initGame], ?_, by simp [initGame], ?_, by simp [initGame], ?_,
          rfl, rfl, rfl, rfl, rfl, rfl, rfl⟩ <;>
    · intro row hrow
      have he := List.eq_of_mem_replicate hrow
      subst he
      exact ⟨List.length_replicate _ _, fun b hb => List.eq_of_mem_replicate hb⟩

/-- C7 witness at board size 3. -/
theorem c7_initial_state_witness :
    (initGame 3).waitingForRoll = true ∧ (initGame 3).winner = none := by
  have h := c7_initial_state 3 (by decide)
  exact ⟨h.2.2.2.2.2.2.2.2.2.2.2.1, h.2.2.2.2.2.2.2.2.2.2.2.2⟩

/-- C4: make_move validates waitingForRoll, then movesLeft, then whether the
targeted line is already drawn; each failure is a silent no-op that leaves
the game state and the registry unchanged and emits nothing; in particular a
line can never be drawn twice, and any draw while waitingForRoll is rejected
unconditionally. -/
theorem c4_rejections (size : Nat) (g : GameState) (t : Linha) (row col : Nat)
    (rooms : Rooms) (roomId : String) :
    (g.waitingForRoll = true → makeMove size g t row col = none) ∧
    (g.movesLeft ≤ 0 → makeMove size g t row col = none) ∧
    (t = Linha.HORIZONTAL → getLine g.horizontalLines row col = true →
       makeMove size g t row col = none) ∧
    (t = Linha.VERTICAL → getLine g.verticalLines row col = true →
       makeMove size g t row col = none) ∧
    (∀ room, rooms roomId = some room →
       makeMove room.boardSize room.gameState t row col = none →
       handleMakeMove rooms roomId t row col = (rooms, none)) ∧
    (dims size g → inBoundsMove size t row col →
       ∀ g2, makeMove size g t row col = some g2 → makeMove size g2 t row col = none) := by
  refine ⟨makeMove_none_waiting size g t row col,
          makeMove_none_nomoves size g t row col, ?_, ?_, ?_, ?_⟩
  · rintro rfl h
    exact makeMove_none_hline size g row col h
  · rintro rfl h
    exact makeMove_none_vline size g row col h
  · intro room hroom hnone
    rw [handleMakeMove_some_room rooms roomId t row col room hroom, hnone]
  · intro hdims hin g2 hsome
    obtain ⟨hwf, hml, hnh, hnv, hbody⟩ := (makeMove_some_iff size g t row col g2).mp hsome
    cases t with
    | HORIZONTAL =>
        apply makeMove_none_hline
        subst hbody
        rw [moveBody_hl, drawPhase_hl_horiz]
        obtain ⟨hr, hc⟩ := hin
        exact get2_set2_self false g.horizontalLines row col true
          (by rw [hdims.1]; omega)
          (by rw [hdims.2.1 row (by omega)]; exact hc)
    | VERTICAL =>
        apply makeMove_none_vline
        subst hbody
        rw [moveBody_vl, drawPhase_vl_vert]
        obtain ⟨hr, hc⟩ := hin
        exact get2_set2_self false g.verticalLines row col true
          (by rw [hdims.2.2.1]; omega)
          (by rw [hdims.2.2.2.1 row (by omega)]; omega)

/-- C4 witness: a draw attempt on a fresh board (which is waiting for a
roll) is rejected. -/
theorem c4_rejections_witness :
    makeMove 2 (initGame 2) Linha.HORIZONTAL 0 0 = none :=
  (c4_rejections 2 (initGame 2) Linha.HORIZONTAL 0 0 roomsW "AB12C").1 rfl

/-- C8: a roll_dice intent against an existing room (room ids are never the
empty string) with positive board size N yields a value r with 1 le r le N,
stores it as diceValue and movesLeft, clears waitingForRoll, and broadcasts
the updated state; against an unknown room id it is a silent no-op. -/
theorem c8_roll (rooms : Rooms) (roomId : String) (u : Nat) :
    (∀ room, rooms roomId = some room → roomId ≠ "" → 0 < room.boardSize →
       1 ≤ rolledNumber room.boardSize u ∧
       rolledNumber room.boardSize u ≤ room.boardSize ∧
       handleRollDice rooms roomId u =
         (updateRoom rooms roomId
            { room with gameState := rollDice room.gameState (rolledNumber room.boardSize u) },
          some (rollDice room.gameState (rolledNumber room.boardSize u))) ∧
       (rollDice room.gameState (rolledNumber room.boardSize u)).diceValue =
         some (rolledNumber room.boardSize u) ∧
       (rollDice room.gameState (rolledNumber room.boardSize u)).movesLeft =
         rolledNumber room.boardSize u ∧
       (rollDice room.gameState (rolledNumber room.boardSize u)).waitingForRoll = false) ∧
    (rooms roomId = none → handleRollDice rooms roomId u = (rooms, none)) := by
  constructor
  · intro room hroom hne hpos
    refine ⟨by unfold rolledNumber; omega, ?_, ?_, rfl, rfl, rfl⟩
    · have := Nat.mod_lt u hpos
      unfold rolledNumber
      omega
    · rw [handleRollDice_some_room rooms roomId u room hroom, if_neg hne]
  · intro hnone
    exact handleRollDice_none_room rooms roomId u hnone

/-- C8 witness on the concrete registry. -/
theorem c8_roll_witness :
    1 ≤ rolledNumber roomW.boardSize 7 ∧ rolledNumber roomW.boardSize 7 ≤ roomW.boardSize := by
  have h := (c8_roll roomsW "AB12C" 7).1 roomW rfl (by decide) (by decide)
  exact ⟨h.1, h.2.1⟩

/-- C9: join_room on an unknown id signals only the requester with the
room-not-found error and changes nothing; on a full room it signals only the
requester with the room-full error and changes nothing; otherwise it seats
the joining player with role B and broadcasts the room snapshot (game state,
player list, board size) to the room. -/
theorem c9_join (rooms : Rooms) (roomId name socketId : String) :
    (rooms roomId = none →
       handleJoinRoom rooms roomId name socketId =
         (rooms, JoinOut.errorToRequester "Sala não encontrada. Verifique o ID.")) ∧
    (∀ room, rooms roomId = some room → 2 ≤ room.players.length →
       handleJoinRoom rooms roomId name socketId =
         (rooms, JoinOut.errorToRequester "A sala já está cheia.")) ∧
    (∀ room, rooms roomId = some room → room.players.length < 2 →
       handleJoinRoom rooms roomId name socketId =
         (updateRoom rooms roomId
            { room with players := room.players ++ [⟨socketId, Player.B, name⟩] },
          JoinOut.gameStartBroadcast roomId room.gameState
            (room.players ++ [⟨socketId, Player.B, name⟩]) room.boardSize)) := by
  refine ⟨?_, ?_, ?_⟩
  · intro h
    exact handleJoinRoom_none_room rooms roomId name socketId h
  · intro room h hfull
    rw [handleJoinRoom_some_room rooms roomId name socketId room h, if_pos hfull]
  · intro room h hspace
    rw [handleJoinRoom_some_room rooms roomId name socketId room h, if_neg (by omega)]

/-- C9 witness: joining the concrete one-player room seats player B and
broadcasts the snapshot. -/
theorem c9_join_witness :
    handleJoinRoom roomsW "AB12C" "bob" "sock2" =
      (updateRoom roomsW "AB12C"
         { roomW with players := roomW.players ++ [⟨"sock2", Player.B, "bob"⟩] },
       JoinOut.gameStartBroadcast "AB12C" roomW.gameState
         (roomW.players ++ [⟨"sock2", Player.B, "bob"⟩]) roomW.boardSize) :=
  (c9_join roomsW "AB12C" "bob" "sock2").2.2 roomW rfl (by decide)

/-- C10: roll_dice and make_move requests never change a room's id, board
size, or player list, whatever their outcome; only the game state can
change. -/
theorem c10_frame (rooms : Rooms) (roomId : String) (u : Nat) (t : Linha)
    (row col : Nat) (i : String) :
    (((handleRollDice rooms roomId u).1 i).map
        (fun room => (room.id, room.boardSize, room.players)) =
      (rooms i).map (fun room => (room.id, room.boardSize, room.players))) ∧
    (((handleMakeMove rooms roomId t row col).1 i).map
        (fun room => (room.id, room.boardSize, room.players)) =
      (rooms i).map (fun room => (room.id, room.boardSize, room.players))) := by
  constructor
  · cases hroom : rooms roomId with
    | none => rw [handleRollDice_none_room rooms roomId u hroom]
    | some room =>
        rw [handleRollDice_some_room rooms roomId u room hroom]
        by_cases hid : roomId = ""
        · rw [if_pos hid]
        · rw [if_neg hid]
          show ((updateRoom rooms roomId _ i).map _) = _
          rw [updateRoom_apply]
          by_cases hi : i = roomId
          · rw [if_pos hi, hi, hroom]
            rfl
          · rw [if_neg hi]
  · cases hroom : rooms roomId with
    | none => rw [handleMakeMove_none_room rooms roomId t row col hroom]
    | some room =>
        rw [handleMakeMove_some_room rooms roomId t row col room hroom]
        cases hmv : makeMove room.boardSize room.gameState t row col with
        | none => rfl
        | some g2 =>
            show ((updateRoom rooms roomId _ i).map _) = _
            rw [updateRoom_apply]
            by_cases hi : i = roomId
            · rw [if_pos hi, hi, hroom]
              rfl
            · rw [if_neg hi]

theorem turnPhase_cp_zero (g : GameState) (h : g.movesLeft = 0) :
    (turnPhase g).currentPlayer = otherPlayer g.currentPlayer := by
  rw [turnPhase_eq_zero g h]

theorem turnPhase_wfr_zero (g : GameState) (h : g.movesLeft = 0) :
    (turnPhase g).waitingForRoll = true := by
  rw [turnPhase_eq_zero g h]

theorem turnPhase_dv_zero (g : GameState) (h : g.movesLeft = 0) :
    (turnPhase g).diceValue = none := by
  rw [turnPhase_eq_zero g h]

theorem endPhase_ml_end (size : Nat) (g : GameState)
    (h : g.scores.A + g.scores.B = size * size) :
    (endPhase size g).movesLeft = 0 := by
  rw [endPhase_eq_end size g h]

theorem endPhase_wfr_end (size : Nat) (g : GameState)
    (h : g.scores.A + g.scores.B = size * size) :
    (endPhase size g).waitingForRoll = false := by
  rw [endPhase_eq_end size g h]

/-- C2: after any accepted make_move, if the score total equals N squared
then movesLeft is forced to zero, waitingForRoll to false, and winner is set
by strict score comparison (A, B, or Draw); while the total is below N
squared, winner is unchanged (so it stays absent during play). -/
theorem c2_game_end (size : Nat) (g : GameState) (t : Linha) (row col : Nat)
    (g2 : GameState) (hacc : makeMove size g t row col = some g2) :
    (g2.scores.A + g2.scores.B = size * size →
       g2.movesLeft = 0 ∧ g2.waitingForRoll = false ∧
       g2.winner = some (if g2.scores.A > g2.scores.B then "A"
                         else if g2.scores.B > g2.scores.A then "B" else "Draw")) ∧
    (g2.scores.A + g2.scores.B < size * size → g2.winner = g.winner) := by
  obtain ⟨hwf, hml, hnh, hnv, hbody⟩ := (makeMove_some_iff size g t row col g2).mp hacc
  subst hbody
  set q := turnPhase (scorePhase size (drawPhase g t row col) t row col) with hq
  constructor
  · intro hsum
    have hsum2 : q.scores.A + q.scores.B = size * size := by
      rw [← endPhase_scores size q]
      exact hsum
    rw [endPhase_eq_end size q hsum2]
    exact ⟨rfl, rfl, rfl⟩
  · intro hlt
    rw [endPhase_scores] at hlt
    have hne : ¬(q.scores.A + q.scores.B = size * size) := by omega
    rw [endPhase_eq_notend size q hne, hq, turnPhase_w, scorePhase_eq_checkAll,
        (checkAll_fields _ _).2.2.2.2.2.2, drawPhase_w]

/-- C2 witness: the final move of the one-square game ends it with winner B. -/
theorem c2_game_end_witness :
    s8.movesLeft = 0 ∧ s8.waitingForRoll = false ∧
    s8.winner = some (if s8.scores.A > s8.scores.B then "A"
                      else if s8.scores.B > s8.scores.A then "B" else "Draw") :=
  (c2_game_end 1 s7 Linha.VERTICAL 0 1 s8 (by decide)).1 (by decide)

/-- C5 counterexample: in the one-square game, the accepted final move
decrements movesLeft from one to zero, yet the resulting state has
waitingForRoll false, not true, because the game-end check overrides the
turn switch. -/
theorem c5_counterexample :
    s7.waitingForRoll = false ∧ 0 < s7.movesLeft ∧
    getLine s7.verticalLines 0 1 = false ∧
    s7.movesLeft - 1 = 0 ∧
    makeMove 1 s7 Linha.VERTICAL 0 1 = some s8 ∧
    ¬s8.waitingForRoll = true := by decide

/-- C5 as amended: an accepted make_move decrements movesLeft by exactly one
and, exactly when the result is zero, flips currentPlayer, sets
waitingForRoll and clears diceValue, leaving those fields unchanged
otherwise; except that when the move brings the score total to N squared,
the game-end rule then forces movesLeft to zero and waitingForRoll to false
(currentPlayer and diceValue still per the turn-switch rule). -/
theorem c5_turn_switch (size : Nat) (g : GameState) (t : Linha) (row col : Nat)
    (g2 : GameState) (hacc : makeMove size g t row col = some g2) :
    (g2.scores.A + g2.scores.B ≠ size * size →
       g2.movesLeft = g.movesLeft - 1 ∧
       (g.movesLeft - 1 = 0 →
          g2.currentPlayer = otherPlayer g.currentPlayer ∧
          g2.waitingForRoll = true ∧ g2.diceValue = none) ∧
       (0 < g.movesLeft - 1 →
          g2.currentPlayer = g.currentPlayer ∧
          g2.waitingForRoll = g.waitingForRoll ∧ g2.diceValue = g.diceValue)) ∧
    (g2.scores.A + g2.scores.B = size * size →
       g2.movesLeft = 0 ∧ g2.waitingForRoll = false ∧
       (g.movesLeft - 1 = 0 →
          g2.currentPlayer = otherPlayer g.currentPlayer ∧ g2.diceValue = none) ∧
       (0 < g.movesLeft - 1 →
          g2.currentPlayer = g.currentPlayer ∧ g2.diceValue = g.diceValue)) := by
  obtain ⟨hwf, hml, hnh, hnv, hbody⟩ := (makeMove_some_iff size g t row col g2).mp hacc
  subst hbody
  set g3 := scorePhase size (drawPhase g t row col) t row col with hg3
  have f_ml : g3.movesLeft = g.movesLeft - 1 := by
    rw [hg3, scorePhase_eq_checkAll, (checkAll_fields _ _).2.2.2.1, drawPhase_ml]
  have f_cp : g3.currentPlayer = g.currentPlayer := by
    rw [hg3, scorePhase_eq_checkAll, (checkAll_fields _ _).2.2.1, drawPhase_cp]
  have f_wfr : g3.waitingForRoll = g.waitingForRoll := by
    rw [hg3, scorePhase_eq_checkAll, (checkAll_fields _ _).2.2.2.2.1, drawPhase_wfr]
  have f_dv : g3.diceValue = g.diceValue := by
    rw [hg3, scorePhase_eq_checkAll, (checkAll_fields _ _).2.2.2.2.2.1, drawPhase_dv]
  constructor
  · intro hne
    rw [endPhase_scores] at hne
    have hEnot := endPhase_eq_notend size (turnPhase g3) hne
    refine ⟨by rw [hEnot, turnPhase_ml, f_ml], ?_, ?_⟩
    · intro h0
      have hz : g3.movesLeft = 0 := by rw [f_ml]; exact h0
      exact ⟨by rw [hEnot, turnPhase_cp_zero g3 hz, f_cp],
             by rw [hEnot, turnPhase_wfr_zero g3 hz],
             by rw [hEnot, turnPhase_dv_zero g3 hz]⟩
    · intro hpos
      have hz : ¬g3.movesLeft = 0 := by rw [f_ml]; omega
      have hT := turnPhase_eq_pos g3 hz
      exact ⟨by rw [hEnot, hT, f_cp], by rw [hEnot, hT, f_wfr], by rw [hEnot, hT, f_dv]⟩
  · intro hend
    rw [endPhase_scores] at hend
    refine ⟨by rw [endPhase_ml_end size (turnPhase g3) hend],
            by rw [endPhase_wfr_end size (turnPhase g3) hend], ?_, ?_⟩
    · intro h0
      have hz : g3.movesLeft = 0 := by rw [f_ml]; exact h0
      exact ⟨by rw [endPhase_cp, turnPhase_cp_zero g3 hz, f_cp],
             by rw [endPhase_dv, turnPhase_dv_zero g3 hz]⟩
    · intro hpos
      have hz : ¬g3.movesLeft = 0 := by rw [f_ml]; omega
      exact ⟨by rw [endPhase_cp, turnPhase_eq_pos g3 hz, f_cp],
             by rw [endPhase_dv, turnPhase_eq_pos g3 hz, f_dv]⟩

/-- C5 amended-claim witness: an ordinary (non game-ending) accepted move on
the fresh two-board decrements movesLeft by exactly one. -/
theorem c5_turn_switch_witness :
    (moveResult 2 (rollDice (initGame 2) 2) Linha.HORIZONTAL 0 0).movesLeft =
      (rollDice (initGame 2) 2).movesLeft - 1 :=
  ((c5_turn_switch 2 (rollDice (initGame 2) 2) Linha.HORIZONTAL 0 0
      (moveResult 2 (rollDice (initGame 2) 2) Linha.HORIZONTAL 0 0)
      (by decide)).1 (by decide)).1

/-- The full one-square game trace is reachable. -/
theorem reachable_s8 : Reachable 1 s8 := by
  have h0 : ReachFrom 1 s0 s0 := ReachFrom.refl s0
  have h1 : ReachFrom 1 s0 s1 := ReachFrom.tail h0 (Step.roll s0 0)
  have h2 : ReachFrom 1 s0 s2 :=
    ReachFrom.tail h1 (Step.move s1 Linha.HORIZONTAL 0 0 (by constructor <;> omega))
  have h3 : ReachFrom 1 s0 s3 := ReachFrom.tail h2 (Step.roll s2 0)
  have h4 : ReachFrom 1 s0 s4 :=
    ReachFrom.tail h3 (Step.move s3 Linha.HORIZONTAL 1 0 (by constructor <;> omega))
  have h5 : ReachFrom 1 s0 s5 := ReachFrom.tail h4 (Step.roll s4 0)
  have h6 : ReachFrom 1 s0 s6 :=
    ReachFrom.tail h5 (Step.move s5 Linha.VERTICAL 0 0 (by constructor <;> omega))
  have h7 : ReachFrom 1 s0 s7 := ReachFrom.tail h6 (Step.roll s6 0)
  exact ReachFrom.tail h7 (Step.move s7 Linha.VERTICAL 0 1 (by constructor <;> omega))

/-- C3: in every state reachable from a fresh game by rolls and in-bounds
moves, the score total equals the number of claimed squares. -/
theorem c3_score_invariant (size : Nat) (g : GameState) (h : Reachable size g) :
    g.scores.A + g.scores.B = claimedCount g.squares :=
  (reachable_gameInv size g h).2.1

/-- C3 witness on the completed one-square game. -/
theorem c3_score_invariant_witness :
    s8.scores.A + s8.scores.B = claimedCount s8.squares :=
  c3_score_invariant 1 s8 reachable_s8

/-- C6: from any reachable state with winner set, no later sequence of
rolls and in-bounds move requests ever changes a line, and every make_move
is rejected (even though roll_dice can still be invoked). -/
theorem c6_terminal (size : Nat) (g g2 : GameState) (hreach : Reachable size g)
    (hw : g.winner.isSome = true) (hres : ReachFrom size g g2) :
    g2.horizontalLines = g.horizontalLines ∧ g2.verticalLines = g.verticalLines ∧
    ∀ t row col, inBoundsMove size t row col → makeMove size g2 t row col = none := by
  have hall : allLines size g := winner_allLines size g (reachable_gameInv size g hreach) hw
  obtain ⟨e1, e2⟩ := reachFrom_frozen size g g2 hall hres
  exact ⟨e1, e2, fun t row col hin =>
    makeMove_none_allLines size g2 t row col (allLines_of_lines_eq size g g2 e1 e2 hall) hin⟩

/-- C6 witness: after the one-square game ends with winner B, a further roll
still leaves every in-bounds move rejected. -/
theorem c6_terminal_witness :
    makeMove 1 s9 Linha.HORIZONTAL 0 0 = none :=
  (c6_terminal 1 s8 s9 reachable_s8 (by decide)
      (ReachFrom.tail (ReachFrom.refl s8) (Step.roll s8 5))).2.2
    Linha.HORIZONTAL 0 0 (by constructor <;> omega)

/-- C1: after an accepted make_move, each candidate square adjacent to the
drawn line is closed exactly when its four edges are all true; every closed,
still-unclaimed candidate is assigned to the mover and adds exactly one to
that player's score (the score grows by the number of such squares, the
other player's score is untouched), and an already-claimed square keeps its
owner. -/
theorem c1_square_scoring (size : Nat) (g : GameState) (t : Linha) (row col : Nat)
    (g2 : GameState) (hd : dims size g) (hin : inBoundsMove size t row col)
    (hacc : makeMove size g t row col = some g2) :
    (∀ rc ∈ candidateSquares t row col size,
       (closedSquare g2 rc.1 rc.2 = true ↔
          (getLine g2.horizontalLines rc.1 rc.2 = true ∧
           getLine g2.horizontalLines (rc.1 + 1) rc.2 = true ∧
           getLine g2.verticalLines rc.1 rc.2 = true ∧
           getLine g2.verticalLines rc.1 (rc.2 + 1) = true)) ∧
       (closedSquare g2 rc.1 rc.2 = true → getSquare g.squares rc.1 rc.2 = none →
          getSquare g2.squares rc.1 rc.2 = some g.currentPlayer) ∧
       (∀ p, getSquare g.squares rc.1 rc.2 = some p →
          getSquare g2.squares rc.1 rc.2 = some p)) ∧
    scoreOf g2.scores g.currentPlayer =
      scoreOf g.scores g.currentPlayer +
        ((candidateSquares t row col size).filter
           (fun rc => closedSquare g2 rc.1 rc.2 &&
                      (getSquare g.squares rc.1 rc.2).isNone)).length ∧
    scoreOf g2.scores (otherPlayer g.currentPlayer) =
      scoreOf g.scores (otherPlayer g.currentPlayer) := by
  obtain ⟨hwf, hml, hnh, hnv, hbody⟩ := (makeMove_some_iff size g t row col g2).mp hacc
  subst hbody
  set g1 := drawPhase g t row col with hg1
  have hd1 : dims size g1 := dims_drawPhase size g t row col hd
  have hnd := candidateSquares_nodup t row col size
  have hbd := candidateSquares_bounds size t row col hin g1 hd1
  rw [scorePhase_eq_checkAll]
  set L := candidateSquares t row col size with hL
  set F := endPhase size (turnPhase (checkAll g1 L)) with hF
  have hsq : F.squares = (checkAll g1 L).squares := by
    rw [hF, endPhase_squares, turnPhase_squares]
  have hsc : F.scores = (checkAll g1 L).scores := by
    rw [hF, endPhase_scores, turnPhase_scores]
  have hhl : F.horizontalLines = g1.horizontalLines := by
    rw [hF, endPhase_hl, turnPhase_hl, (checkAll_fields L g1).1]
  have hvl : F.verticalLines = g1.verticalLines := by
    rw [hF, endPhase_vl, turnPhase_vl, (checkAll_fields L g1).2.1]
  have hcl : ∀ x y, closedSquare F x y = closedSquare g1 x y := by
    intro x y
    unfold closedSquare
    rw [hhl, hvl]
  have hcp : g1.currentPlayer = g.currentPlayer := by rw [hg1, drawPhase_cp]
  have hscores : g1.scores = g.scores := by rw [hg1, drawPhase_scores]
  have hsquares : g1.squares = g.squares := by rw [hg1, drawPhase_squares]
  have hpred : ∀ rc ∈ L, newlyClosed g1 rc =
      (fun rc => closedSquare F rc.1 rc.2 && (getSquare g.squares rc.1 rc.2).isNone) rc := by
    intro rc hm
    show newlyClosed g1 rc =
      (closedSquare F rc.1 rc.2 && (getSquare g.squares rc.1 rc.2).isNone)
    unfold newlyClosed
    rw [hcl rc.1 rc.2, hsquares]
  have hfilteq := List.filter_congr hpred
  obtain ⟨c1, c2, c3, c4⟩ := checkAll_counts L g1 hnd hbd
  refine ⟨?_, ?_, ?_⟩
  · intro rc hm
    refine ⟨?_, ?_, ?_⟩
    · simp [closedSquare, Bool.and_eq_true, and_assoc]
    · intro hclosed2 hunclaimed
      rw [hsq]
      have hchar := getSquare_checkAll_mem L g1 hnd hbd rc hm
      have hnc : newlyClosed g1 rc = true := by
        apply (newlyClosed_iff g1 rc).mpr
        refine ⟨?_, ?_⟩
        · rw [← hcl rc.1 rc.2]
          exact hclosed2
        · rw [hsquares]
          exact hunclaimed
      rw [hchar, if_pos hnc, hcp]
    · intro p hp
      rw [hsq]
      have hchar := getSquare_checkAll_mem L g1 hnd hbd rc hm
      have hnc : ¬newlyClosed g1 rc = true := by
        rw [newlyClosed_iff]
        rintro ⟨hcl2, hnone⟩
        rw [hsquares, hp] at hnone
        cases hnone
      rw [hchar, if_neg hnc, hsquares]
      exact hp
  · rw [hsc]
    rw [hcp] at c1
    rw [hscores] at c1
    rw [hfilteq] at c1
    exact c1
  · rw [hsc]
    rw [hcp] at c2
    rw [hscores] at c2
    exact c2

/-- C1 witness: the final move of the one-square game claims square (0,0)
for the mover. -/
theorem c1_square_scoring_witness :
    getSquare s8.squares 0 0 = some s7.currentPlayer := by
  have h := c1_square_scoring 1 s7 Linha.VERTICAL 0 1 s8 (by unfold dims; decide)
    (by constructor <;> omega) (by decide)
  exact (h.1 (0, 0) (by decide)).2.1 (by decide) (by decide)
